import Mathlib

/-!
Verification of the llmlayer_js client (src/client.ts, API v2) against its
natural-language specification.

The development shallowly embeds the relevant parts of the TypeScript source:

* JavaScript/JSON values are modelled by the inductive type JVal.  JSON numbers
  are modelled as integers (every numeric literal exercised by the verified
  properties is integral); property access, truthiness, nullish coalescing and
  string conversion follow the JavaScript semantics used by the source.
* JSON.parse is an external collaborator of the client (the specification lists
  the JSON codec as assumed given), so the SSE decoder is parametric in a
  parse function; concrete theorems instantiate it.
* The platform TextDecoder (UTF-8, streaming) is modelled by an incremental
  byte-level decoder over well-formed UTF-8; BOM stripping is not modelled
  (no verified property involves a byte-order mark).
* Strings on the wire are modelled as lists of characters; bytes as natural
  numbers below 256.
-/

/- ===================== basic character/string helpers ===================== -/

/-- ASCII uppercase test, the character class of the regular expression
used by toSnakeCase in src/client.ts line 47. -/
def isUpperAscii (c : Char) : Bool := 'A' ≤ c && c ≤ 'Z'

/-- Lowercasing of an ASCII capital, as String.prototype.toLowerCase acts on
the characters matched by that class; other characters are unchanged. -/
def lowerAscii (c : Char) : Char :=
  if isUpperAscii c then Char.ofNat (c.toNat + 32) else c

/-- Replacement pass of the regular expression in toSnakeCase: every ASCII
capital is replaced by an underscore followed by its lowercase form. -/
def snakeChars : List Char → List Char
  | [] => []
  | c :: cs => (if isUpperAscii c then ['_', lowerAscii c] else [c]) ++ snakeChars cs

/-- toSnakeCase from src/client.ts lines 46-48: if the string contains an ASCII
capital, rewrite every capital to an underscore plus its lowercase form,
otherwise return the string unchanged. -/
def toSnakeCase (s : String) : String :=
  if s.data.any isUpperAscii then ⟨snakeChars s.data⟩ else s

/-- Lowercasing a whole string (String.prototype.toLowerCase); the source only
ever applies it to ASCII data, which lowerAscii covers. -/
def lowerStr (s : String) : String := ⟨s.data.map lowerAscii⟩

/-- Characters removed by String.prototype.trim: ASCII whitespace, NBSP, BOM,
the Unicode space separators and the line separators. -/
def isJsWs (c : Char) : Bool :=
  c = ' ' || c = '\t' || c = '\n' || c = '\r' || c = '\x0b' || c = '\x0c' ||
  c = '\u00A0' || c = '\uFEFF' || c = '\u1680' ||
  ('\u2000' ≤ c && c ≤ '\u200A') || c = '\u2028' || c = '\u2029' ||
  c = '\u202F' || c = '\u205F' || c = '\u3000'

/-- String.prototype.trim on a character list: strip leading and trailing
JavaScript whitespace. -/
def jsTrimChars (l : List Char) : List Char :=
  ((l.dropWhile isJsWs).reverse.dropWhile isJsWs).reverse

/-- Decidable check that one character list starts with another. -/
def startsWithL : List Char → List Char → Bool
  | [], _ => true
  | _ :: _, [] => false
  | p :: ps, c :: cs => p = c && startsWithL ps cs

/-- Decidable substring check, modelling String.prototype.includes. -/
def containsSub (pat : List Char) : List Char → Bool
  | [] => startsWithL pat []
  | c :: cs => startsWithL pat (c :: cs) || containsSub pat cs

/- ===================== JavaScript value model ===================== -/

/-- JavaScript values as they occur in the client: undefined, null, booleans,
numbers (restricted to integers), strings, arrays and plain objects with
insertion-ordered string keys. -/
inductive JVal where
  | undefined : JVal
  | null : JVal
  | bool : Bool → JVal
  | num : Int → JVal
  | str : String → JVal
  | arr : List JVal → JVal
  | obj : List (String × JVal) → JVal

/-- JavaScript truthiness: undefined, null, false, 0 and the empty string are
falsy; every other value (including every object and array) is truthy. -/
def truthy : JVal → Bool
  | .undefined => false
  | .null => false
  | .bool b => b
  | .num i => i != 0
  | .str s => !s.data.isEmpty
  | .arr _ => true
  | .obj _ => true

/-- The typeof x === 'object' test: true for objects, arrays and null. -/
def isObjType : JVal → Bool
  | .obj _ => true
  | .arr _ => true
  | .null => true
  | _ => false

/-- First-match lookup in an object's field list (JavaScript object keys are
unique, so first match is the only match). -/
def jsLookup : List (String × JVal) → String → JVal
  | [], _ => .undefined
  | (k', v) :: fs, k => if k' = k then v else jsLookup fs k

/-- Property access x.k (and the optional chain x?.k): undefined when the
receiver is not an object or lacks the key. -/
def getField : JVal → String → JVal
  | .obj fs, k => jsLookup fs k
  | _, _ => .undefined

/-- The nullish-coalescing operator a ?? b. -/
def jsNullish (a b : JVal) : JVal :=
  match a with
  | .undefined => b
  | .null => b
  | _ => a

mutual

/-- JavaScript ToString on the values the client stringifies (template
literals, String(x), property keys).  Integer numbers print as in JavaScript;
arrays join their elements with commas, null and undefined elements printing
as empty. -/
def jsToString : JVal → String
  | .undefined => "undefined"
  | .null => "null"
  | .bool true => "true"
  | .bool false => "false"
  | .num i => toString i
  | .str s => s
  | .arr xs => jsArrToString xs
  | .obj _ => "[object Object]"

/-- Element-joining of Array.prototype.toString. -/
def jsArrToString : List JVal → String
  | [] => ""
  | [.undefined] => ""
  | [.null] => ""
  | [v] => jsToString v
  | .undefined :: vs => "," ++ jsArrToString vs
  | .null :: vs => "," ++ jsArrToString vs
  | v :: vs => jsToString v ++ "," ++ jsArrToString vs

end

/-- Escapes of JSON.stringify for a string character.  The rare control
character escapes of the form backslash-u are not modelled; no verified
property serializes control characters. -/
def jsonEscapeChar (c : Char) : List Char :=
  if c = '\\' then ['\\', '\\']
  else if c = '"' then ['\\', '"']
  else if c = '\n' then ['\\', 'n']
  else if c = '\t' then ['\\', 't']
  else if c = '\r' then ['\\', 'r']
  else [c]

/-- JSON string literal for a string value. -/
def jsonQuote (s : String) : String :=
  "\"" ++ ⟨(s.data.map jsonEscapeChar).flatten⟩ ++ "\""

mutual

/-- JSON.stringify on the finite values the client serializes (no cycles, so
it never throws).  Undefined never occurs at the call sites' top level. -/
def jsonStringify : JVal → String
  | .undefined => "null"
  | .null => "null"
  | .bool true => "true"
  | .bool false => "false"
  | .num i => toString i
  | .str s => jsonQuote s
  | .arr xs => "[" ++ jsonArrBody xs ++ "]"
  | .obj fs => "\x7b" ++ jsonObjBody fs ++ "\x7d"

/-- Comma-joined array elements of JSON.stringify. -/
def jsonArrBody : List JVal → String
  | [] => ""
  | [v] => jsonStringify v
  | v :: vs => jsonStringify v ++ "," ++ jsonArrBody vs

/-- Object body of JSON.stringify; fields holding undefined are omitted. -/
def jsonObjBody : List (String × JVal) → String
  | [] => ""
  | (_, .undefined) :: fs => jsonObjBody fs
  | (k, v) :: fs => jsonQuote k ++ ":" ++ jsonStringify v ++ jsonObjRest fs

/-- Remaining object fields, each preceded by a comma. -/
def jsonObjRest : List (String × JVal) → String
  | [] => ""
  | (_, .undefined) :: fs => jsonObjRest fs
  | (k, v) :: fs => "," ++ jsonQuote k ++ ":" ++ jsonStringify v ++ jsonObjRest fs

end

/- ===================== error model (src/errors.ts) ===================== -/

/-- The error classes exported by src/errors.ts; generic stands for the base
class LLMLayerError. -/
inductive ErrKind where
  | invalidRequest
  | authenticationError
  | providerError
  | rateLimitError
  | internalServerError
  | generic
deriving DecidableEq

/-- An error as observed by the caller: its class, its message and the
http status attached to it (when any). -/
structure ErrRec where
  kind : ErrKind
  message : String
  status : Option Nat
deriving DecidableEq

/-- ERROR_MAP from src/client.ts lines 99-111: the static tag table from
error-type strings to error classes, including the backend-specific aliases
that all map to InternalServerError. -/
def errorMapLookup : String → Option ErrKind
  | "validation_error" => some .invalidRequest
  | "authentication_error" => some .authenticationError
  | "provider_error" => some .providerError
  | "rate_limit" => some .rateLimitError
  | "internal_error" => some .internalServerError
  | "scraping_error" => some .internalServerError
  | "search_error" => some .internalServerError
  | "map_error" => some .internalServerError
  | "crawl_stream_error" => some .internalServerError
  | _ => none

/-- classForStatus from src/client.ts lines 113-120.  The argument is the
optional numeric status; a missing or zero status (both falsy in the source's
if (!status) test) yields the base class. -/
def classForStatus : Option Nat → ErrKind
  | none => .generic
  | some st =>
    if st = 0 then .generic
    else if st = 400 then .invalidRequest
    else if st = 401 ∨ st = 403 then .authenticationError
    else if st = 429 then .rateLimitError
    else if 500 ≤ st then .internalServerError
    else .generic

/-- unwrapDetail from src/client.ts lines 122-128: a nested object under the
detail key replaces the payload; a string detail is wrapped as a message
object; anything else leaves the payload as is. -/
def unwrapDetail (payload : JVal) : JVal :=
  if !(truthy payload) || !(isObjType payload) then payload
  else
    match getField payload "detail" with
    | .obj fs => .obj fs
    | .arr vs => .arr vs
    | .str s => .obj [("message", .str s)]
    | _ => payload

/-- Truthiness of the optional status number, as used in the source's
status ? ... : ... and if (status) tests. -/
def statusTruthy : Option Nat → Bool
  | none => false
  | some n => n != 0

/-- buildErr from src/client.ts lines 130-141: unwrap the payload, take the
explicit type tag (error_type then type), pick the message (message, then
error, then a string detail on the original payload, then a synthesized
HTTP text), resolve the class through the tag table with the status map as
fallback, and attach the truthy status. -/
def buildErr (payload : JVal) (status : Option Nat) : ErrRec :=
  let data := unwrapDetail payload
  let etype := jsNullish (getField data "error_type") (getField data "type")
  let msg1 := jsNullish (getField data "message") (jsNullish (getField data "error") (.str ""))
  let msg2 :=
    if !(truthy msg1) then
      match getField payload "detail" with
      | .str s => JVal.str s
      | _ => msg1
    else msg1
  let msg3 :=
    if !(truthy msg2) then
      JVal.str (match status with
        | some n => if n != 0 then "HTTP " ++ toString n else "Error"
        | none => "Error")
    else msg2
  let kind :=
    if truthy etype then
      match errorMapLookup (jsToString etype) with
      | some k => k
      | none => classForStatus status
    else classForStatus status
  ⟨kind, jsToString msg3,
    match status with
    | some n => if n != 0 then some n else none
    | none => none⟩

/-- Appending of the x-request-id correlation id to an error message, as done
at the end of raiseHttp. -/
def appendRid (e : ErrRec) (rid : Option String) : ErrRec :=
  match rid with
  | none => e
  | some r => ⟨e.kind, e.message ++ " (request_id=" ++ r ++ ")", e.status⟩

/-- raiseHttp from src/client.ts lines 495-509.  The body argument is the
outcome of res.json(): none when the body was absent or not valid JSON (the
promise rejected), some payload otherwise.  In the none case the source's
catch block raises the base class with the status and status text; otherwise
buildErr classifies the payload with the status attached. -/
def raiseHttp (status : Nat) (statusText : String) (body : Option JVal)
    (rid : Option String) : ErrRec :=
  match body with
  | none => appendRid ⟨.generic, toString status ++ " " ++ statusText, none⟩ rid
  | some payload => appendRid (buildErr payload (some status)) rid

/- ===================== client construction ===================== -/

/-- Options accepted by the LLMLayerClient constructor; absent options are
undefined in the source. -/
structure ClientOptions where
  apiKey : Option String
  baseURL : Option String
  timeoutMs : Option Nat

/-- The immutable per-instance configuration set up by the constructor. -/
structure LLMLayerClient where
  apiKey : String
  baseURL : String
  timeout : Nat

/-- Message of the missing helper from src/client.ts lines 143-145. -/
def missingMsg (name : String) : String :=
  name ++ " missing (set env var or pass option)"

/-- Removal of one trailing slash, the replace on the base URL. -/
def stripEndSlash (s : String) : String :=
  if s.data.getLast? = some '/' then ⟨s.data.dropLast⟩ else s

/-- The LLMLayerClient constructor, src/client.ts lines 236-240, as a pure
function of the options and the process environment.  The constructor performs
no I/O: it only reads the options and the environment, so a thrown
AuthenticationError precedes any network activity. -/
def mkClient (opts : ClientOptions) (env : String → Option String) :
    Except ErrRec LLMLayerClient :=
  match opts.apiKey.or (env "LLMLAYER_API_KEY") with
  | none => .error ⟨.authenticationError, missingMsg "LLMLAYER_API_KEY", none⟩
  | some key =>
    .ok ⟨key, stripEndSlash ((opts.baseURL).getD "https://api.llmlayer.dev"),
      (opts.timeoutMs).getD 60000⟩

/- ===================== request body construction ===================== -/

/-- Assignment out[k] = v on an insertion-ordered object: an existing key
keeps its position and gets the new value, a new key is appended. -/
def setKey : List (String × JVal) → String → JVal → List (String × JVal)
  | [], k, v => [(k, v)]
  | (k', v') :: rest, k, v =>
    if k' = k then (k', v) :: rest else (k', v') :: setKey rest k v

/-- convertKeysToSnakeCase from src/client.ts lines 49-53: entries holding
undefined are dropped, every other entry is stored under its snake_case key. -/
def convertKeysToSnakeCase (ps : List (String × JVal)) : List (String × JVal) :=
  ps.foldl
    (fun out kv =>
      match kv.2 with
      | .undefined => out
      | v => setKey out (toSnakeCase kv.1) v)
    []

/-- buildSearchRequestBody from src/client.ts lines 56-72: snake_case the
keys, lowercase string answer_type and search_type, and serialize an object
json_schema. -/
def buildSearchRequestBody (params : List (String × JVal)) : List (String × JVal) :=
  let body := convertKeysToSnakeCase params
  let body :=
    match getField (.obj body) "answer_type" with
    | .str s => setKey body "answer_type" (.str (lowerStr s))
    | _ => body
  let body :=
    match getField (.obj body) "search_type" with
    | .str s => setKey body "search_type" (.str (lowerStr s))
    | _ => body
  match getField (.obj body) "json_schema" with
  | .obj fs => setKey body "json_schema" (.str (jsonStringify (.obj fs)))
  | .arr vs => setKey body "json_schema" (.str (jsonStringify (.arr vs)))
  | _ => body

/-- The message of the InvalidRequest thrown by streamAnswer for structured
JSON output. -/
def streamJsonErrMsg : String :=
  "Streaming does not support structured JSON output (answer_type=\x27json\x27)."

/-- Prelude of streamAnswer, src/client.ts lines 265-279, up to the issuing of
the network request: the answer-type guard runs first (lines 266-269, before
the transport is resolved at line 271 and before the fetch at line 274), so a
guard failure is returned before the request descriptor exists; otherwise the
endpoint path and the built body describe the request that is issued. -/
def streamAnswerStart (params : List (String × JVal)) :
    Except ErrRec (String × List (String × JVal)) :=
  match jsNullish (getField (.obj params) "answer_type") (getField (.obj params) "answerType") with
  | .str s =>
    if lowerStr s = "json" then .error ⟨.invalidRequest, streamJsonErrMsg, none⟩
    else .ok ("/api/v2/answer_stream", buildSearchRequestBody params)
  | _ => .ok ("/api/v2/answer_stream", buildSearchRequestBody params)

/-- Prelude of the blocking answer call, src/client.ts lines 247-256: it has
no client-side validation and always proceeds to issue the request. -/
def answerStart (params : List (String × JVal)) :
    Except ErrRec (String × List (String × JVal)) :=
  .ok ("/api/v2/answer", buildSearchRequestBody params)

/- ===================== stream consumption loop ===================== -/

/-- What the streamAnswer frame loop does with one decoded frame: yield the
unwrapped value or raise. -/
inductive StepRes where
  | yield : JVal → StepRes
  | fault : ErrRec → StepRes

/-- The strict equality test of a value against the string literal error. -/
def typeIsError : JVal → Bool
  | .str s => s = "error"
  | _ => false

/-- One iteration of the for-await loop in streamAnswer, src/client.ts lines
284-298: unwrap the frame; a truthy error field raises InvalidRequest for the
known bare reasons and the base class otherwise; a frame typed error or
carrying a truthy error_type raises via buildErr (with no status); any other
frame is yielded. -/
def loopStep (frame : JVal) : StepRes :=
  let data := unwrapDetail frame
  let simple := getField data "error"
  if truthy simple then
    let s := lowerStr (jsToString simple)
    if s = "missing_model" ∨ s = "missing_query" ∨ s = "invalid_model" ∨
        containsSub "structured output".data s.data then
      .fault ⟨.invalidRequest, jsToString simple, none⟩
    else
      .fault ⟨.generic, jsToString simple, none⟩
  else if typeIsError (getField data "type") || truthy (getField data "error_type") then
    .fault (buildErr data none)
  else
    .yield data

/-- The whole frame loop over the decoded frame sequence: frames yielded in
order until the first fault; a fault ends consumption, later frames are never
examined. -/
def streamLoop : List JVal → List JVal × Option ErrRec
  | [] => ([], none)
  | f :: fs =>
    match loopStep f with
    | .yield v =>
      let r := streamLoop fs
      (v :: r.1, r.2)
    | .fault e => ([], some e)

/- ===================== streaming UTF-8 decoder ===================== -/

/-- UTF-8 encoding of one character (its Unicode scalar value). -/
def utf8EncodeChar (c : Char) : List Nat :=
  let v := c.toNat
  if v < 128 then [v]
  else if v < 2048 then [192 + v / 64, 128 + v % 64]
  else if v < 65536 then [224 + v / 4096, 128 + (v / 64) % 64, 128 + v % 64]
  else [240 + v / 262144, 128 + (v / 4096) % 64, 128 + (v / 64) % 64, 128 + v % 64]

/-- UTF-8 encoding of a text: the underlying bytes of the wire stream. -/
def utf8Encode (s : List Char) : List Nat := (s.map utf8EncodeChar).flatten

/-- Total length of the byte sequence announced by a lead byte. -/
def utf8Need (b : Nat) : Nat :=
  if b < 192 then 1 else if b < 224 then 2 else if b < 240 then 3 else 4

/-- Continuation byte test. -/
def isCont (b : Nat) : Bool := 128 ≤ b && b < 192

/-- The Unicode replacement character emitted for malformed input. -/
def replChar : Char := '�'

/-- Decoding of one complete UTF-8 byte sequence; malformed or overlong
sequences and surrogate values give the replacement character. -/
def utf8DecodeChar : List Nat → Char
  | [a] => if a < 128 then Char.ofNat a else replChar
  | [a, b] =>
    if 194 ≤ a && a < 224 && isCont b then Char.ofNat ((a - 192) * 64 + (b - 128))
    else replChar
  | [a, b, c] =>
    if 224 ≤ a && a < 240 && isCont b && isCont c then
      let v := (a - 224) * 4096 + (b - 128) * 64 + (c - 128)
      if v < 2048 || (55296 ≤ v && v < 57344) then replChar else Char.ofNat v
    else replChar
  | [a, b, c, d] =>
    if 240 ≤ a && a < 245 && isCont b && isCont c && isCont d then
      let v := (a - 240) * 262144 + (b - 128) * 4096 + (c - 128) * 64 + (d - 128)
      if v < 65536 || 1114112 ≤ v then replChar else Char.ofNat v
    else replChar
  | _ => replChar

/-- One byte of streaming UTF-8 decoding: the pending bytes of an incomplete
sequence are extended by the new byte; a now-complete sequence is decoded and
the buffer cleared, an incomplete one stays pending.  This is the cross-chunk
state of the TextDecoder used with the stream option. -/
def utf8Step (pend : List Nat) (b : Nat) : List Char × List Nat :=
  let bs := pend ++ [b]
  if bs.length < utf8Need (bs.headD 0) then ([], bs) else ([utf8DecodeChar bs], [])

/-- Folding step threading the decoded characters through utf8Step. -/
def utf8FoldStep (st : List Char × List Nat) (b : Nat) : List Char × List Nat :=
  (st.1 ++ (utf8Step st.2 b).1, (utf8Step st.2 b).2)

/-- One call decoder.decode(chunk, stream true): decode a chunk of bytes
given the pending bytes carried over from earlier chunks, returning the
decoded characters and the new pending bytes. -/
def textDecoderDecode (pend : List Nat) (chunk : List Nat) : List Char × List Nat :=
  chunk.foldl utf8FoldStep ([], pend)

/- ===================== SSE data-frame decoder ===================== -/

/-- Removal of one trailing carriage return from an extracted line, the
replace of the line terminator normalization in src/client.ts line 182. -/
def stripCR (l : List Char) : List Char :=
  if l.getLast? = some '\r' then l.dropLast else l

/-- Test for the SSE comment marker at the start of a line. -/
def startsWithColon : List Char → Bool
  | ':' :: _ => true
  | _ => false

/-- Test for the data field marker at the start of a line. -/
def startsWithData : List Char → Bool
  | 'd' :: 'a' :: 't' :: 'a' :: ':' :: _ => true
  | _ => false

/-- Handling of one complete line by the loop body in src/client.ts lines
185-204, given the data accumulator: a blank line flushes a non-empty
accumulator (join with no separator, trim, parse if non-empty, drop the frame
on parse failure) and resets it; a comment line is ignored; a data line
appends its remainder after the five-character prefix; other fields are
ignored. -/
def processLine (parse : List Char → Option JVal) (acc : List (List Char))
    (line : List Char) : Option JVal × List (List Char) :=
  if line = [] then
    match acc with
    | [] => (none, acc)
    | _ :: _ =>
      let raw := jsTrimChars acc.flatten
      (if raw = [] then none else parse raw, [])
  else if startsWithColon line then (none, acc)
  else if startsWithData line then (none, acc ++ [line.drop 5])
  else (none, acc)

/-- One character of the line extraction loop (the while loop over the first
newline in the buffer, src/client.ts lines 181-205): a newline dispatches the
buffered line (with one trailing carriage return stripped) through
processLine, any other character is buffered.  The running state is the
frames emitted so far, the data accumulator and the line buffer. -/
def lineScanStep (parse : List Char → Option JVal)
    (st : List JVal × List (List Char) × List Char) (c : Char) :
    List JVal × List (List Char) × List Char :=
  if c = '\n' then
    let pr := processLine parse st.2.1 (stripCR st.2.2)
    (st.1 ++ pr.1.toList, pr.2, [])
  else (st.1, st.2.1, st.2.2 ++ [c])

/-- The decoder state carried between chunks: the pending bytes of the
TextDecoder, the text buffer buf and the data accumulator dataBuf. -/
structure SSEState where
  pending : List Nat
  buf : List Char
  acc : List (List Char)

/-- Processing of one chunk by the for-await body of iterateSSEDataFrames
(src/client.ts lines 178-205): decode the chunk's bytes, append the text to
the buffer, and extract and handle every complete line. -/
def feedChunk (parse : List Char → Option JVal) (st : SSEState) (chunk : List Nat) :
    List JVal × SSEState :=
  let td := textDecoderDecode st.pending chunk
  let ls := (st.buf ++ td.1).foldl (lineScanStep parse) ([], st.acc, [])
  (ls.1, ⟨td.2, ls.2.2, ls.2.1⟩)

/-- The chunk loop: frames emitted per chunk, concatenated in order. -/
def runChunks (parse : List Char → Option JVal) (st : SSEState) :
    List (List Nat) → List JVal × SSEState
  | [] => ([], st)
  | c :: cs =>
    let f := feedChunk parse st c
    let r := runChunks parse f.2 cs
    (f.1 ++ r.1, r.2)

/-- Removal of one trailing line terminator (newline or carriage return plus
newline), the replace applied to the leftover buffer at end of input. -/
def stripEndNL (l : List Char) : List Char :=
  if l.getLast? = some '\n' then
    let l' := l.dropLast
    if l'.getLast? = some '\r' then l'.dropLast else l'
  else l

/-- The end-of-input flush of src/client.ts lines 209-217: only the leftover
line buffer is considered; if it is non-empty and starts with the data
marker, its remainder after the five-character prefix is parsed (untrimmed)
when non-empty.  The data accumulator plays no part here. -/
def finalFlush (parse : List Char → Option JVal) (buf : List Char) : Option JVal :=
  if buf = [] then none
  else
    let last := stripEndNL buf
    if startsWithData last then
      let raw := last.drop 5
      if raw = [] then none else parse raw
    else none

/-- iterateSSEDataFrames from src/client.ts lines 173-218, as a function from
the chunked byte stream to the list of decoded frames, parametric in the
JSON parse collaborator. -/
def iterateSSEDataFrames (parse : List Char → Option JVal)
    (chunks : List (List Nat)) : List JVal :=
  let r := runChunks parse ⟨[], [], []⟩ chunks
  r.1 ++ (finalFlush parse r.2.buf).toList

/- ===================== event text builders ===================== -/

/-- The five characters of the SSE data field marker. -/
def dataMark : List Char := ['d', 'a', 't', 'a', ':']

/-- One data line carrying the given remainder, terminated by a newline. -/
def dataLineChars (f : List Char) : List Char := dataMark ++ f ++ ['\n']

/-- A complete SSE event: one data line per fragment, then the blank line
that ends the event. -/
def eventChars (frags : List (List Char)) : List Char :=
  (frags.map dataLineChars).flatten ++ ['\n']

/- ===================== snake-case lemmas (claim C9) ===================== -/

/-- Numeric characterization of the ASCII uppercase test. -/
theorem isUpperAscii_iff (c : Char) :
    isUpperAscii c = true ↔ (65 ≤ c.toNat ∧ c.toNat ≤ 90) := by
  unfold isUpperAscii
  simp only [Bool.and_eq_true, decide_eq_true_eq]
  exact Iff.intro (fun ⟨h1, h2⟩ => ⟨h1, h2⟩) (fun ⟨h1, h2⟩ => ⟨h1, h2⟩)

/-- Auxiliary reduction of ofNat back to toNat on valid scalars. -/
theorem toNat_ofNat_valid (n : Nat) (h : n.isValidChar) : (Char.ofNat n).toNat = n := by
  simp only [Char.ofNat, h, dif_pos, Char.ofNatAux, Char.toNat]
  rfl

/-- Lowercasing an uppercase character never yields an uppercase character. -/
theorem isUpperAscii_lowerAscii (c : Char) : isUpperAscii (lowerAscii c) = false := by
  unfold lowerAscii
  by_cases h : isUpperAscii c = true
  · rw [if_pos h]
    have hr := (isUpperAscii_iff c).1 h
    have hv : (c.toNat + 32).isValidChar := by
      unfold Nat.isValidChar
      omega
    have ht := toNat_ofNat_valid (c.toNat + 32) hv
    rw [Bool.eq_false_iff]
    intro hu
    have := (isUpperAscii_iff _).1 hu
    omega
  · rw [if_neg h]
    exact Bool.not_eq_true _ ▸ h

/-- The output of the capital-replacement pass holds no ASCII capital. -/
theorem snakeChars_noUpper : ∀ l : List Char, (snakeChars l).any isUpperAscii = false := by
  intro l
  induction l with
  | nil => rfl
  | cons c cs ih =>
    unfold snakeChars
    by_cases h : isUpperAscii c = true
    · simp [h, ih, isUpperAscii_lowerAscii c]
      decide
    · simp [h, ih, Bool.not_eq_true _ ▸ h]

/-- Names without ASCII capitals pass through the transliteration unchanged. -/
theorem toSnakeCase_of_noUpper (s : String) (h : s.data.any isUpperAscii = false) :
    toSnakeCase s = s := by
  unfold toSnakeCase
  rw [h]
  simp

/-- Names with some ASCII capital are rewritten by the replacement pass. -/
theorem toSnakeCase_of_upper (s : String) (h : s.data.any isUpperAscii = true) :
    toSnakeCase s = ⟨snakeChars s.data⟩ := by
  unfold toSnakeCase
  rw [h]
  simp

/-- C9: the field-name transliteration toSnakeCase is a pure function that
returns any name without ASCII capitals unchanged, and its output never
contains a capital, so applying it to its own output is the identity. -/
theorem c9_toSnakeCase_idem (s : String) :
    (s.data.any isUpperAscii = false → toSnakeCase s = s) ∧
    toSnakeCase (toSnakeCase s) = toSnakeCase s := by
  refine ⟨toSnakeCase_of_noUpper s, ?_⟩
  by_cases h : s.data.any isUpperAscii = true
  · rw [toSnakeCase_of_upper s h]
    exact toSnakeCase_of_noUpper _ (snakeChars_noUpper s.data)
  · have h' : s.data.any isUpperAscii = false := Bool.not_eq_true _ ▸ h
    rw [toSnakeCase_of_noUpper s h', toSnakeCase_of_noUpper s h']

/-- C9 witness: the transliteration at concrete field names, via the theorem
itself. -/
theorem c9_toSnakeCase_idem_witness :
    toSnakeCase "max_tokens" = "max_tokens" ∧
    toSnakeCase (toSnakeCase "maxTokens") = toSnakeCase "maxTokens" :=
  ⟨(c9_toSnakeCase_idem "max_tokens").1 (by decide), (c9_toSnakeCase_idem "maxTokens").2⟩

/- ===================== http error claims (C2, C7) ===================== -/

/-- C2 counterexample: a 503 response whose body is absent or unparsable (the
res.json() promise rejects, the body argument is none) is raised through the
catch block as the base LLMLayerError with message built from the status and
status text, not as an InternalServerError with message HTTP 503 as the claim
states. -/
theorem c2_counterexample :
    (raiseHttp 503 "Service Unavailable" none none).kind = ErrKind.generic ∧
    (raiseHttp 503 "Service Unavailable" none none).message = "503 Service Unavailable" ∧
    ¬ ((raiseHttp 503 "Service Unavailable" none none).kind = ErrKind.internalServerError ∧
      (raiseHttp 503 "Service Unavailable" none none).message = "HTTP 503") := by
  exact ⟨rfl, rfl, by decide⟩

/-- C2 amended: on a 503 response an unparsable or absent body yields the base
LLMLayerError with message status-space-statusText and no attached status;
the InternalServerError with synthesized message HTTP 503 arises when the
body parses to JSON that carries no message, error or detail text (for
instance the empty object). -/
theorem c2_amended (stext : String) :
    raiseHttp 503 stext none none = ⟨.generic, "503 " ++ stext, none⟩ ∧
    raiseHttp 503 stext (some (JVal.obj [])) none =
      ⟨.internalServerError, "HTTP 503", some 503⟩ :=
  ⟨rfl, rfl⟩

/-- The payload of claim C7. -/
def c7Payload : JVal :=
  .obj [("detail", .obj [("error_type", .str "rate_limit"), ("message", .str "slow down")])]

/-- C7: classifying a payload whose detail object carries the rate_limit type
tag and the message slow down produces a RateLimitError with that message,
for any or no HTTP status: the detail object is unwrapped and the tag resolves
through the static tag table before any status fallback. -/
theorem c7_rate_limit_detail (status : Option Nat) :
    (buildErr c7Payload status).kind = ErrKind.rateLimitError ∧
    (buildErr c7Payload status).message = "slow down" := by
  cases status with
  | none => exact ⟨rfl, rfl⟩
  | some n => exact ⟨rfl, rfl⟩

/- ===================== constructor claim (C8) ===================== -/

/-- C8: constructing a client with no apiKey option and no LLMLAYER_API_KEY
environment variable fails with an AuthenticationError; the constructor is a
pure function of options and environment, so the failure precedes any network
activity. -/
theorem c8_constructor_auth (opts : ClientOptions) (env : String → Option String)
    (h1 : opts.apiKey = none) (h2 : env "LLMLAYER_API_KEY" = none) :
    mkClient opts env =
      .error ⟨.authenticationError,
        "LLMLAYER_API_KEY missing (set env var or pass option)", none⟩ := by
  unfold mkClient
  rw [h1, h2]
  rfl

/-- C8 witness: the concrete empty configuration. -/
theorem c8_constructor_auth_witness :
    mkClient ⟨none, none, none⟩ (fun _ => none) =
      .error ⟨.authenticationError,
        "LLMLAYER_API_KEY missing (set env var or pass option)", none⟩ :=
  c8_constructor_auth ⟨none, none, none⟩ (fun _ => none) rfl rfl

/- ===================== streaming json guard (C10) ===================== -/

/-- C10: when the effective answer type of the request (answer_type, falling
back to answerType) is the string json in any letter case, the streamAnswer
prelude fails with InvalidRequest before the request descriptor is built
(in the source the throw precedes the transport resolution and the fetch),
while the blocking answer prelude accepts the same request and issues it. -/
theorem c10_stream_json_guard (params : List (String × JVal)) (s : String)
    (h : jsNullish (getField (.obj params) "answer_type")
      (getField (.obj params) "answerType") = .str s)
    (hj : lowerStr s = "json") :
    streamAnswerStart params = .error ⟨.invalidRequest, streamJsonErrMsg, none⟩ ∧
    answerStart params = .ok ("/api/v2/answer", buildSearchRequestBody params) := by
  refine ⟨?_, rfl⟩
  unfold streamAnswerStart
  rw [h]
  simp [hj]

/-- C10 witness: the camel-cased request with upper-case JSON answer type,
via the theorem itself. -/
theorem c10_stream_json_guard_witness :
    streamAnswerStart [("answerType", JVal.str "JSON")] =
      .error ⟨.invalidRequest, streamJsonErrMsg, none⟩ ∧
    answerStart [("answerType", JVal.str "JSON")] =
      .ok ("/api/v2/answer", buildSearchRequestBody [("answerType", JVal.str "JSON")]) :=
  c10_stream_json_guard [("answerType", JVal.str "JSON")] "JSON" rfl rfl

/- ===================== stream fault claim (C3) ===================== -/

/-- The error frame of claim C3. -/
def c3ErrFrame : JVal := .obj [("type", .str "error"), ("error", .str "missing_query")]

/-- C3: if the decoded frame sequence consists of frames the loop yields,
then the missing_query error frame, then anything at all, the streamAnswer
loop yields exactly the preceding frames (unwrapped, in order) and raises
InvalidRequest at the error frame; the frames after it are never examined. -/
theorem c3_missing_query_fault (pre post : List JVal)
    (h : ∀ f ∈ pre, loopStep f = .yield (unwrapDetail f)) :
    streamLoop (pre ++ c3ErrFrame :: post) =
      (pre.map unwrapDetail, some ⟨.invalidRequest, "missing_query", none⟩) := by
  induction pre with
  | nil =>
    simp only [List.nil_append, List.map_nil]
    unfold streamLoop
    rw [show loopStep c3ErrFrame = .fault ⟨.invalidRequest, "missing_query", none⟩ from rfl]
  | cons f fs ih =>
    have hf := h f (List.mem_cons_self f fs)
    have hfs : ∀ g ∈ fs, loopStep g = .yield (unwrapDetail g) :=
      fun g hg => h g (List.mem_cons_of_mem f hg)
    simp only [List.cons_append, List.map_cons]
    unfold streamLoop
    rw [hf, ih hfs]

/-- A well-formed domain frame preceding the fault in the C3 witness. -/
def c3PreFrame : JVal := .obj [("type", .str "answer"), ("content", .str "a")]

/-- A frame following the fault in the C3 witness, never delivered. -/
def c3PostFrame : JVal := .obj [("type", .str "sources")]

/-- C3 witness: one domain frame, the error frame, one trailing frame, via
the theorem itself. -/
theorem c3_missing_query_fault_witness :
    streamLoop ([c3PreFrame] ++ c3ErrFrame :: [c3PostFrame]) =
      ([c3PreFrame], some ⟨.invalidRequest, "missing_query", none⟩) :=
  (c3_missing_query_fault [c3PreFrame] [c3PostFrame]
    (by
      intro f hf
      rw [List.mem_singleton] at hf
      subst hf
      rfl)).trans rfl

/- ===================== UTF-8 decoder lemmas ===================== -/

/-- Every character's scalar value is in range and avoids the surrogates. -/
theorem char_toNat_facts (c : Char) :
    c.toNat < 1114112 ∧ (c.toNat < 55296 ∨ 57343 < c.toNat) := by
  have h := c.valid
  unfold UInt32.isValidChar Nat.isValidChar at h
  have h2 : c.toNat = c.val.toNat := rfl
  omega

theorem utf8Need_eq1 (b : Nat) (h : b < 192) : utf8Need b = 1 := by
  unfold utf8Need
  rw [if_pos h]

theorem utf8Need_eq2 (b : Nat) (h1 : 192 ≤ b) (h2 : b < 224) : utf8Need b = 2 := by
  unfold utf8Need
  rw [if_neg (by omega), if_pos h2]

theorem utf8Need_eq3 (b : Nat) (h1 : 224 ≤ b) (h2 : b < 240) : utf8Need b = 3 := by
  unfold utf8Need
  rw [if_neg (by omega), if_neg (by omega), if_pos h2]

theorem utf8Need_eq4 (b : Nat) (h : 240 ≤ b) : utf8Need b = 4 := by
  unfold utf8Need
  rw [if_neg (by omega), if_neg (by omega), if_neg (by omega)]

/-- A fold step on bytes that leave the sequence incomplete only extends the
pending buffer. -/
theorem ufs_incomplete (cs : List Char) (p : List Nat) (b : Nat)
    (h : (p ++ [b]).length < utf8Need ((p ++ [b]).headD 0)) :
    utf8FoldStep (cs, p) b = (cs, p ++ [b]) := by
  unfold utf8FoldStep utf8Step
  rw [if_pos h]
  simp

/-- A fold step completing a sequence emits its decoded character and clears
the pending buffer. -/
theorem ufs_complete (cs : List Char) (p : List Nat) (b : Nat)
    (h : ¬ (p ++ [b]).length < utf8Need ((p ++ [b]).headD 0)) :
    utf8FoldStep (cs, p) b = (cs ++ [utf8DecodeChar (p ++ [b])], []) := by
  unfold utf8FoldStep utf8Step
  rw [if_neg h]

/-- Streaming decode of the encoding of one character from a clean state
emits exactly that character and leaves a clean state. -/
theorem tdd_encChar (c : Char) : textDecoderDecode [] (utf8EncodeChar c) = ([c], []) := by
  obtain ⟨hlt, hsur⟩ := char_toNat_facts c
  by_cases h1 : c.toNat < 128
  · have henc : utf8EncodeChar c = [c.toNat] := by
      unfold utf8EncodeChar
      rw [if_pos h1]
    rw [henc]
    unfold textDecoderDecode
    rw [List.foldl_cons, List.foldl_nil]
    rw [ufs_complete [] ([]) (c.toNat)
      (by
        simp only [List.cons_append, List.nil_append, List.headD_cons,
          List.length_cons, List.length_nil]
        rw [utf8Need_eq1 _ (by omega)]
        omega)]
    simp only [List.cons_append, List.nil_append]
    simp only [utf8DecodeChar]
    rw [if_pos h1, Char.ofNat_toNat]
  · by_cases h2 : c.toNat < 2048
    · have henc : utf8EncodeChar c = [192 + c.toNat / 64, 128 + c.toNat % 64] := by
        unfold utf8EncodeChar
        rw [if_neg h1, if_pos h2]
      rw [henc]
      unfold textDecoderDecode
      rw [List.foldl_cons, List.foldl_cons, List.foldl_nil]
      rw [ufs_incomplete [] ([]) (192 + c.toNat / 64)
        (by
          simp only [List.cons_append, List.nil_append, List.headD_cons,
            List.length_cons, List.length_nil]
          rw [utf8Need_eq2 _ (by omega) (by omega)]
          omega)]
      simp only [List.cons_append, List.nil_append]
      rw [ufs_complete [] ([192 + c.toNat / 64]) (128 + c.toNat % 64)
        (by
          simp only [List.cons_append, List.nil_append, List.headD_cons,
            List.length_cons, List.length_nil]
          rw [utf8Need_eq2 _ (by omega) (by omega)]
          omega)]
      simp only [List.cons_append, List.nil_append]
      simp only [utf8DecodeChar]
      rw [if_pos (by
        simp only [isCont, Bool.and_eq_true, decide_eq_true_eq]
        omega)]
      rw [show (192 + c.toNat / 64 - 192) * 64 + (128 + c.toNat % 64 - 128) = c.toNat by omega,
        Char.ofNat_toNat]
    · by_cases h3 : c.toNat < 65536
      · have henc : utf8EncodeChar c =
            [224 + c.toNat / 4096, 128 + c.toNat / 64 % 64, 128 + c.toNat % 64] := by
          unfold utf8EncodeChar
          rw [if_neg h1, if_neg h2, if_pos h3]
        rw [henc]
        unfold textDecoderDecode
        rw [List.foldl_cons, List.foldl_cons, List.foldl_cons, List.foldl_nil]
        rw [ufs_incomplete [] ([]) (224 + c.toNat / 4096)
          (by
            simp only [List.cons_append, List.nil_append, List.headD_cons,
              List.length_cons, List.length_nil]
            rw [utf8Need_eq3 _ (by omega) (by omega)]
            omega)]
        simp only [List.cons_append, List.nil_append]
        rw [ufs_incomplete [] ([224 + c.toNat / 4096]) (128 + c.toNat / 64 % 64)
          (by
            simp only [List.cons_append, List.nil_append, List.headD_cons,
              List.length_cons, List.length_nil]
            rw [utf8Need_eq3 _ (by omega) (by omega)]
            omega)]
        simp only [List.cons_append, List.nil_append]
        rw [ufs_complete [] ([224 + c.toNat / 4096, 128 + c.toNat / 64 % 64]) (128 + c.toNat % 64)
          (by
            simp only [List.cons_append, List.nil_append, List.headD_cons,
              List.length_cons, List.length_nil]
            rw [utf8Need_eq3 _ (by omega) (by omega)]
            omega)]
        simp only [List.cons_append, List.nil_append]
        simp only [utf8DecodeChar]
        rw [if_pos (by
          simp only [isCont, Bool.and_eq_true, decide_eq_true_eq]
          omega)]
        rw [show (224 + c.toNat / 4096 - 224) * 4096 + (128 + c.toNat / 64 % 64 - 128) * 64 +
            (128 + c.toNat % 64 - 128) = c.toNat by omega]
        rw [if_neg (by
          simp only [Bool.or_eq_true, Bool.and_eq_true, decide_eq_true_eq]
          omega)]
        rw [Char.ofNat_toNat]
      · have henc : utf8EncodeChar c =
            [240 + c.toNat / 262144, 128 + c.toNat / 4096 % 64,
             128 + c.toNat / 64 % 64, 128 + c.toNat % 64] := by
          unfold utf8EncodeChar
          rw [if_neg h1, if_neg h2, if_neg h3]
        rw [henc]
        unfold textDecoderDecode
        rw [List.foldl_cons, List.foldl_cons, List.foldl_cons, List.foldl_cons, List.foldl_nil]
        rw [ufs_incomplete [] ([]) (240 + c.toNat / 262144)
          (by
            simp only [List.cons_append, List.nil_append, List.headD_cons,
              List.length_cons, List.length_nil]
            rw [utf8Need_eq4 _ (by omega)]
            omega)]
        simp only [List.cons_append, List.nil_append]
        rw [ufs_incomplete [] ([240 + c.toNat / 262144]) (128 + c.toNat / 4096 % 64)
          (by
            simp only [List.cons_append, List.nil_append, List.headD_cons,
              List.length_cons, List.length_nil]
            rw [utf8Need_eq4 _ (by omega)]
            omega)]
        simp only [List.cons_append, List.nil_append]
        rw [ufs_incomplete [] ([240 + c.toNat / 262144, 128 + c.toNat / 4096 % 64]) (128 + c.toNat / 64 % 64)
          (by
            simp only [List.cons_append, List.nil_append, List.headD_cons,
              List.length_cons, List.length_nil]
            rw [utf8Need_eq4 _ (by omega)]
            omega)]
        simp only [List.cons_append, List.nil_append]
        rw [ufs_complete [] ([240 + c.toNat / 262144, 128 + c.toNat / 4096 % 64, 128 + c.toNat / 64 % 64]) (128 + c.toNat % 64)
          (by
            simp only [List.cons_append, List.nil_append, List.headD_cons,
              List.length_cons, List.length_nil]
            rw [utf8Need_eq4 _ (by omega)]
            omega)]
        simp only [List.cons_append, List.nil_append]
        simp only [utf8DecodeChar]
        rw [if_pos (by
          simp only [isCont, Bool.and_eq_true, decide_eq_true_eq]
          omega)]
        rw [show (240 + c.toNat / 262144 - 240) * 262144 +
            (128 + c.toNat / 4096 % 64 - 128) * 4096 +
            (128 + c.toNat / 64 % 64 - 128) * 64 + (128 + c.toNat % 64 - 128) = c.toNat by omega]
        rw [if_neg (by
          simp only [Bool.or_eq_true, decide_eq_true_eq]
          omega)]
        rw [Char.ofNat_toNat]

/-- Decoded characters accumulate on the left of the fold state. -/
theorem tdd_accum (chunk : List Nat) : ∀ (cs0 : List Char) (p : List Nat),
    chunk.foldl utf8FoldStep (cs0, p) =
      (cs0 ++ (chunk.foldl utf8FoldStep ([], p)).1, (chunk.foldl utf8FoldStep ([], p)).2) := by
  induction chunk with
  | nil =>
    intro cs0 p
    simp
  | cons b bs ih =>
    intro cs0 p
    simp only [List.foldl_cons]
    have e1 : utf8FoldStep (cs0, p) b = (cs0 ++ (utf8Step p b).1, (utf8Step p b).2) := rfl
    have e2 : utf8FoldStep ([], p) b = ((utf8Step p b).1, (utf8Step p b).2) := by
      simp [utf8FoldStep]
    rw [e1, e2, ih (cs0 ++ (utf8Step p b).1) ((utf8Step p b).2),
      ih ((utf8Step p b).1) ((utf8Step p b).2)]
    simp [List.append_assoc]

/-- Splitting a chunk in two decodes the same characters through the carried
state: the streaming TextDecoder is insensitive to chunk boundaries. -/
theorem textDecoderDecode_append (p a b : List Nat) :
    textDecoderDecode p (a ++ b) =
      ((textDecoderDecode p a).1 ++ (textDecoderDecode (textDecoderDecode p a).2 b).1,
       (textDecoderDecode (textDecoderDecode p a).2 b).2) := by
  unfold textDecoderDecode
  rw [List.foldl_append]
  exact tdd_accum b _ _

/-- Streaming decode of a whole encoded text from a clean state yields the
text back with a clean final state. -/
theorem tdd_enc (t : List Char) : textDecoderDecode [] (utf8Encode t) = (t, []) := by
  induction t with
  | nil => rfl
  | cons c cs ih =>
    have he : utf8Encode (c :: cs) = utf8EncodeChar c ++ utf8Encode cs := by
      simp [utf8Encode]
    rw [he, textDecoderDecode_append, tdd_encChar, ih]
    simp

/- ===================== line scanner lemmas ===================== -/

/-- Emitted frames accumulate on the left of the scan state. -/
theorem lineScan_accum (parse : List Char → Option JVal) (chars : List Char) :
    ∀ (F : List JVal) (A : List (List Char)) (cur : List Char),
    chars.foldl (lineScanStep parse) (F, A, cur) =
      (F ++ (chars.foldl (lineScanStep parse) ([], A, cur)).1,
       (chars.foldl (lineScanStep parse) ([], A, cur)).2) := by
  induction chars with
  | nil =>
    intro F A cur
    simp
  | cons c cs ih =>
    intro F A cur
    simp only [List.foldl_cons]
    by_cases h : c = '\n'
    · subst h
      have e1 : lineScanStep parse (F, A, cur) '\n' =
          (F ++ (processLine parse A (stripCR cur)).1.toList,
           (processLine parse A (stripCR cur)).2, []) := by
        simp [lineScanStep]
      have e2 : lineScanStep parse ([], A, cur) '\n' =
          ((processLine parse A (stripCR cur)).1.toList,
           (processLine parse A (stripCR cur)).2, []) := by
        simp [lineScanStep]
      rw [e1, e2,
        ih (F ++ (processLine parse A (stripCR cur)).1.toList)
          ((processLine parse A (stripCR cur)).2) [],
        ih ((processLine parse A (stripCR cur)).1.toList)
          ((processLine parse A (stripCR cur)).2) []]
      simp [List.append_assoc]
    · have e1 : lineScanStep parse (F, A, cur) c = (F, A, cur ++ [c]) := by
        simp [lineScanStep, h]
      have e2 : lineScanStep parse ([], A, cur) c = ([], A, cur ++ [c]) := by
        simp [lineScanStep, h]
      rw [e1, e2, ih F A (cur ++ [c])]

/-- Scanning newline-free text only extends the line buffer. -/
theorem lineScan_nonl (parse : List Char → Option JVal) (chars : List Char)
    (h : '\n' ∉ chars) :
    ∀ (F : List JVal) (A : List (List Char)) (cur : List Char),
    chars.foldl (lineScanStep parse) (F, A, cur) = (F, A, cur ++ chars) := by
  induction chars with
  | nil =>
    intro F A cur
    simp
  | cons c cs ih =>
    intro F A cur
    have hc : ¬ (c = '\n') := fun e => h (e ▸ List.mem_cons_self c cs)
    have h' : '\n' ∉ cs := fun m => h (List.mem_cons_of_mem c m)
    simp only [List.foldl_cons]
    rw [show lineScanStep parse (F, A, cur) c = (F, A, cur ++ [c]) from by
      simp [lineScanStep, hc]]
    rw [ih h' F A (cur ++ [c])]
    simp

/-- The line buffer left by the scanner never contains a newline. -/
theorem lineScan_cur_nonl (parse : List Char → Option JVal) (chars : List Char) :
    ∀ (F : List JVal) (A : List (List Char)) (cur : List Char), '\n' ∉ cur →
    '\n' ∉ (chars.foldl (lineScanStep parse) (F, A, cur)).2.2 := by
  induction chars with
  | nil =>
    intro F A cur h
    simpa using h
  | cons c cs ih =>
    intro F A cur h
    simp only [List.foldl_cons]
    by_cases hc : c = '\n'
    · subst hc
      rw [show lineScanStep parse (F, A, cur) '\n' =
          (F ++ (processLine parse A (stripCR cur)).1.toList,
           (processLine parse A (stripCR cur)).2, []) from by simp [lineScanStep]]
      exact ih _ _ [] (by simp)
    · rw [show lineScanStep parse (F, A, cur) c = (F, A, cur ++ [c]) from by
        simp [lineScanStep, hc]]
      refine ih _ _ (cur ++ [c]) ?_
      intro hm
      rcases List.mem_append.1 hm with hm | hm
      · exact h hm
      · rw [List.mem_singleton] at hm
        exact hc hm.symm

/-- A newline-free prefix followed by a newline dispatches exactly that prefix
as one line and restarts the scan on the remainder. -/
theorem lineScan_line (parse : List Char → Option JVal) (l rest : List Char)
    (h : '\n' ∉ l) (F : List JVal) (A : List (List Char)) :
    (l ++ '\n' :: rest).foldl (lineScanStep parse) (F, A, []) =
      rest.foldl (lineScanStep parse)
        (F ++ (processLine parse A (stripCR l)).1.toList,
         (processLine parse A (stripCR l)).2, []) := by
  rw [List.foldl_append, lineScan_nonl parse l h F A [], List.nil_append, List.foldl_cons]
  rw [show lineScanStep parse (F, A, l) '\n' =
      (F ++ (processLine parse A (stripCR l)).1.toList,
       (processLine parse A (stripCR l)).2, []) from by simp [lineScanStep]]

/- ===================== chunk split lemmas ===================== -/

/-- Scanning a concatenation is scanning the first part, then scanning the
leftover line buffer joined to the second part from the carried accumulator. -/
theorem lineScan_concat (parse : List Char → Option JVal) (x y : List Char)
    (A : List (List Char)) :
    (x ++ y).foldl (lineScanStep parse) ([], A, []) =
      ((x.foldl (lineScanStep parse) ([], A, [])).1 ++
        (((x.foldl (lineScanStep parse) ([], A, [])).2.2 ++ y).foldl (lineScanStep parse)
          ([], (x.foldl (lineScanStep parse) ([], A, [])).2.1, [])).1,
       (((x.foldl (lineScanStep parse) ([], A, [])).2.2 ++ y).foldl (lineScanStep parse)
          ([], (x.foldl (lineScanStep parse) ([], A, [])).2.1, [])).2) := by
  have hc : '\n' ∉ (x.foldl (lineScanStep parse) ([], A, [])).2.2 :=
    lineScan_cur_nonl parse x [] A [] (by simp)
  generalize hS : x.foldl (lineScanStep parse) ([], A, []) = S at hc ⊢
  obtain ⟨F1, A1, cur1⟩ := S
  rw [List.foldl_append, hS]
  rw [List.foldl_append, lineScan_nonl parse cur1 hc [] A1 [], List.nil_append]
  exact lineScan_accum parse y F1 A1 cur1

/-- Feeding the concatenation of two chunks is feeding them in sequence: the
per-chunk loop carries all its state in the decoder state. -/
theorem feedChunk_split (parse : List Char → Option JVal) (st : SSEState)
    (a b : List Nat) :
    feedChunk parse st (a ++ b) =
      ((feedChunk parse st a).1 ++ (feedChunk parse (feedChunk parse st a).2 b).1,
       (feedChunk parse (feedChunk parse st a).2 b).2) := by
  unfold feedChunk
  dsimp only
  rw [textDecoderDecode_append]
  dsimp only
  rw [show st.buf ++ ((textDecoderDecode st.pending a).1 ++
      (textDecoderDecode (textDecoderDecode st.pending a).2 b).1) =
      (st.buf ++ (textDecoderDecode st.pending a).1) ++
      (textDecoderDecode (textDecoderDecode st.pending a).2 b).1 from
    (List.append_assoc _ _ _).symm]
  rw [lineScan_concat parse (st.buf ++ (textDecoderDecode st.pending a).1)
    (textDecoderDecode (textDecoderDecode st.pending a).2 b).1 st.acc]

/-- Merging two adjacent chunks of the stream leaves the frame sequence and
final state unchanged. -/
theorem runChunks_merge (parse : List Char → Option JVal) (st : SSEState)
    (a b : List Nat) (cs : List (List Nat)) :
    runChunks parse st ((a ++ b) :: cs) = runChunks parse st (a :: b :: cs) := by
  simp only [runChunks]
  rw [feedChunk_split]
  simp [List.append_assoc]

/-- A non-empty chunk list decodes exactly as its flattened single chunk. -/
theorem runChunks_flatten (parse : List Char → Option JVal) :
    ∀ (cs : List (List Nat)) (a : List Nat) (st : SSEState),
    runChunks parse st (a :: cs) = runChunks parse st [a ++ cs.flatten] := by
  intro cs
  induction cs with
  | nil =>
    intro a st
    simp
  | cons b cs' ih =>
    intro a st
    rw [← runChunks_merge parse st a b cs']
    rw [ih (a ++ b) st]
    simp [List.append_assoc]

/- ===================== event processing lemmas ===================== -/

/-- A value produced by getLast? is a member of the list. -/
theorem mem_of_getLast_some (l : List Char) (x : Char) (h : l.getLast? = some x) :
    x ∈ l := by
  obtain ⟨hne, he⟩ := List.mem_getLast?_eq_getLast (Option.mem_def.2 h)
  rw [he]
  exact List.getLast_mem hne

/-- Carriage-return stripping leaves a data line with a clean fragment
unchanged. -/
theorem stripCR_dataLine (f : List Char) (hf : '\r' ∉ f) :
    stripCR (dataMark ++ f) = dataMark ++ f := by
  unfold stripCR
  rw [if_neg ?hne]
  case hne =>
    intro h
    by_cases hf0 : f = []
    · subst hf0
      simp [dataMark] at h
    · rw [List.getLast?_append_of_ne_nil _ hf0] at h
      exact hf (mem_of_getLast_some f '\r' h)

/-- A data line contributes exactly its remainder to the accumulator. -/
theorem processLine_data (parse : List Char → Option JVal) (A : List (List Char))
    (f : List Char) : processLine parse A (dataMark ++ f) = (none, A ++ [f]) := rfl

/-- Scanning a block of data lines queues their fragments, in order, on the
accumulator, emitting nothing. -/
theorem lineScan_dataLines (parse : List Char → Option JVal) :
    ∀ (frags : List (List Char)) (F : List JVal) (A : List (List Char)) (rest : List Char),
    (∀ f ∈ frags, '\n' ∉ f ∧ '\r' ∉ f) →
    ((frags.map dataLineChars).flatten ++ rest).foldl (lineScanStep parse) (F, A, []) =
      rest.foldl (lineScanStep parse) (F, A ++ frags, []) := by
  intro frags
  induction frags with
  | nil =>
    intro F A rest h
    simp
  | cons f fr ih =>
    intro F A rest h
    obtain ⟨hfn, hfr⟩ := h f (List.mem_cons_self f fr)
    have hrest : ∀ g ∈ fr, '\n' ∉ g ∧ '\r' ∉ g :=
      fun g hg => h g (List.mem_cons_of_mem f hg)
    rw [List.map_cons, List.flatten_cons, List.append_assoc]
    rw [show dataLineChars f ++ ((fr.map dataLineChars).flatten ++ rest) =
        (dataMark ++ f) ++ ('\n' :: ((fr.map dataLineChars).flatten ++ rest)) from by
      unfold dataLineChars
      simp [List.append_assoc]]
    rw [lineScan_line parse (dataMark ++ f) _ (by
      intro hm
      rcases List.mem_append.1 hm with hm | hm
      · simp [dataMark] at hm
      · exact hfn hm) F A]
    rw [stripCR_dataLine f hfr, processLine_data parse A f]
    rw [show ((none : Option JVal).toList) = [] from rfl, List.append_nil]
    rw [ih F (A ++ [f]) rest hrest]
    rw [show (A ++ [f]) ++ fr = A ++ f :: fr from by simp]

/-- Feeding one complete event from the clean state emits the parse of the
trimmed fragment concatenation (or nothing when parsing fails) and returns to
the clean state. -/
theorem feed_event (parse : List Char → Option JVal) (frags : List (List Char))
    (hc : ∀ f ∈ frags, '\n' ∉ f ∧ '\r' ∉ f)
    (hne : jsTrimChars frags.flatten ≠ []) :
    feedChunk parse ⟨[], [], []⟩ (utf8Encode (eventChars frags)) =
      ((parse (jsTrimChars frags.flatten)).toList, ⟨[], [], []⟩) := by
  have hfr : frags ≠ [] := by
    intro e
    subst e
    exact hne rfl
  obtain ⟨g, gs, rfl⟩ : ∃ g gs, frags = g :: gs := by
    cases frags with
    | nil => exact absurd rfl hfr
    | cons g gs => exact ⟨g, gs, rfl⟩
  unfold feedChunk
  dsimp only
  rw [tdd_enc]
  dsimp only
  rw [List.nil_append]
  unfold eventChars
  rw [lineScan_dataLines parse (g :: gs) [] [] ['\n'] hc]
  rw [List.nil_append, List.foldl_cons, List.foldl_nil]
  rw [show lineScanStep parse (([] : List JVal), g :: gs, ([] : List Char)) '\n' =
      ((processLine parse (g :: gs) []).1.toList, (processLine parse (g :: gs) []).2, [])
    from by simp [lineScanStep, stripCR]]
  rw [show processLine parse (g :: gs) [] =
      (if jsTrimChars ((g :: gs).flatten) = [] then none
       else parse (jsTrimChars ((g :: gs).flatten)), ([] : List (List Char))) from rfl]
  rw [if_neg hne]

/- ===================== chunk-boundary independence (C4) ===================== -/

/-- C4: for every logical SSE text and every way of splitting its encoded
bytes into chunks, the decoded frame sequence equals the one produced when
all bytes arrive as a single chunk, for any parse collaborator; splits inside
a multi-byte UTF-8 character are covered since the chunk list is arbitrary. -/
theorem c4_chunk_independence (parse : List Char → Option JVal) (text : List Char)
    (chunks : List (List Nat)) (h : chunks.flatten = utf8Encode text) :
    iterateSSEDataFrames parse chunks = iterateSSEDataFrames parse [utf8Encode text] := by
  cases chunks with
  | nil =>
    have h0 : utf8Encode text = [] := by simpa using h.symm
    rw [h0]
    rfl
  | cons a cs =>
    unfold iterateSSEDataFrames
    rw [runChunks_flatten parse cs a ⟨[], [], []⟩]
    rw [show a ++ cs.flatten = utf8Encode text from by simpa using h]

/-- A parse collaborator recording the exact string handed to it. -/
def idStrParse : List Char → Option JVal := fun l => some (.str ⟨l⟩)

/-- C4 witness: the bytes of a two-line event split inside the two-byte
encoding of a non-ASCII character, via the theorem itself. -/
theorem c4_chunk_independence_witness :
    ([[100, 97, 116, 97, 58, 32, 195], [169, 10, 10]] : List (List Nat)).flatten =
      utf8Encode "data: é\n\n".data ∧
    iterateSSEDataFrames idStrParse [[100, 97, 116, 97, 58, 32, 195], [169, 10, 10]] =
      iterateSSEDataFrames idStrParse [utf8Encode "data: é\n\n".data] :=
  ⟨by decide, c4_chunk_independence idStrParse "data: é\n\n".data
    [[100, 97, 116, 97, 58, 32, 195], [169, 10, 10]] (by decide)⟩

/- ===================== multi-line round-trip (C5) ===================== -/

/-- C5: for an event whose payload is split across several data lines, the
string handed to the JSON parse collaborator is the exact concatenation of
the per-line remainders in arrival order with no separator inserted, trimmed
at the ends; the emitted frame is the parse of exactly that string.  The
fragments are assumed free of line terminators, which is what makes them the
per-line remainders of the wire text built here. -/
theorem c5_multiline_roundtrip (parse : List Char → Option JVal)
    (frags : List (List Char))
    (hc : ∀ f ∈ frags, '\n' ∉ f ∧ '\r' ∉ f)
    (hne : jsTrimChars frags.flatten ≠ []) :
    iterateSSEDataFrames parse [utf8Encode (eventChars frags)] =
      (parse (jsTrimChars frags.flatten)).toList := by
  unfold iterateSSEDataFrames
  simp only [runChunks]
  rw [feed_event parse frags hc hne]
  simp [finalFlush]

/-- The payload fragments of the C5 witness. -/
def c5Frags : List (List Char) := [" \x7b\"a\":".data, "1\x7d".data]

/-- The parse collaborator of the C5 witness: defined only at the exact
reassembled JSON text. -/
def c5Parse : List Char → Option JVal :=
  fun l => if l = "\x7b\"a\":1\x7d".data then some (.str "ok") else none

/-- C5 witness: a JSON object split across two data lines reassembles to the
exact concatenation, via the theorem itself. -/
theorem c5_multiline_roundtrip_witness :
    iterateSSEDataFrames c5Parse [utf8Encode (eventChars c5Frags)] = [JVal.str "ok"] :=
  (c5_multiline_roundtrip c5Parse c5Frags (by decide) (by decide)).trans rfl

/- ===================== malformed event dropped (C6) ===================== -/

/-- C6: an event whose concatenated, trimmed data content fails to parse
emits no frame and no error, and the decoder state returns to the clean
state, so the rest of the stream decodes exactly as if the event had not been
there.  The decoder is a total function, so no error can be raised. -/
theorem c6_malformed_dropped (parse : List Char → Option JVal)
    (frags : List (List Char))
    (hc : ∀ f ∈ frags, '\n' ∉ f ∧ '\r' ∉ f)
    (hne : jsTrimChars frags.flatten ≠ [])
    (hbad : parse (jsTrimChars frags.flatten) = none)
    (chunks : List (List Nat)) :
    iterateSSEDataFrames parse (utf8Encode (eventChars frags) :: chunks) =
      iterateSSEDataFrames parse chunks ∧
    iterateSSEDataFrames parse [utf8Encode (eventChars frags)] = [] := by
  constructor
  · unfold iterateSSEDataFrames
    simp only [runChunks]
    rw [feed_event parse frags hc hne, hbad]
    simp
  · unfold iterateSSEDataFrames
    simp only [runChunks]
    rw [feed_event parse frags hc hne, hbad]
    simp [finalFlush]

/-- The parse collaborator of the C6 witness: accepts only the text ok. -/
def c6Parse : List Char → Option JVal :=
  fun l => if l = "ok".data then some (.str "ok") else none

/-- C6 witness: a malformed event followed by a well-formed one decodes to
exactly the frames of the well-formed remainder, via the theorem itself. -/
theorem c6_malformed_dropped_witness :
    iterateSSEDataFrames c6Parse
        (utf8Encode (eventChars ["nope".data]) :: [utf8Encode (eventChars [" ok".data])]) =
      iterateSSEDataFrames c6Parse [utf8Encode (eventChars [" ok".data])] ∧
    iterateSSEDataFrames c6Parse [utf8Encode (eventChars ["nope".data])] = [] :=
  c6_malformed_dropped c6Parse ["nope".data] (by decide) (by decide) rfl
    [utf8Encode (eventChars [" ok".data])]

/- ===================== trailing flush (C1) ===================== -/

/-- The parse collaborator of the C1 counterexample: defined exactly at the
one-character text 1. -/
def c1Parse : List Char → Option JVal :=
  fun l => if l = ['1'] then some (.num 1) else none

/-- C1 counterexample: the input data-colon-space-1-newline ends without a
terminating blank line while the accumulator holds the fragment space-1; the
claim predicts the parse-or-drop flush of the trimmed concatenation (which
parses, second conjunct), yet the decoder emits nothing (first conjunct),
because the end-of-input flush reads only the empty leftover line buffer and
ignores the accumulator. -/
theorem c1_counterexample :
    iterateSSEDataFrames c1Parse [utf8Encode ("data: 1\n".data)] = [] ∧
    c1Parse (jsTrimChars (" 1".data)) = some (JVal.num 1) := ⟨rfl, rfl⟩

/-- The scanner's line buffer is empty after text ending in a newline. -/
theorem lineScan_end_buf (parse : List Char → Option JVal) (t : List Char)
    (ht : t = [] ∨ t.getLast? = some '\n') (F : List JVal) (A : List (List Char)) :
    (t.foldl (lineScanStep parse) (F, A, [])).2.2 = [] := by
  rcases ht with rfl | h
  · simp
  · have hne : t ≠ [] := by
      rintro rfl
      simp at h
    have hl := List.getLast?_eq_getLast_of_ne_nil hne
    rw [h] at hl
    have hg : t.getLast hne = '\n' := (Option.some_inj.1 hl).symm
    have hsplit : t.dropLast ++ ['\n'] = t := by
      conv_rhs => rw [← List.dropLast_append_getLast hne]
      rw [hg]
    conv_lhs => rw [← hsplit]
    rw [List.foldl_append, List.foldl_cons, List.foldl_nil]
    rfl

/-- Characterization of the end-of-input flush on a newline-free leftover. -/
theorem finalFlush_nonl (parse : List Char → Option JVal) (tail : List Char)
    (h : '\n' ∉ tail) :
    (finalFlush parse tail).toList =
      (if startsWithData tail = true ∧ tail.drop 5 ≠ []
       then (parse (tail.drop 5)).toList else []) := by
  unfold finalFlush
  by_cases h0 : tail = []
  · subst h0
    simp [startsWithData]
  · rw [if_neg h0]
    have hs : stripEndNL tail = tail := by
      unfold stripEndNL
      rw [if_neg (fun he => h (mem_of_getLast_some tail '\n' he))]
    rw [hs]
    by_cases hd : startsWithData tail = true
    · rw [if_pos hd]
      by_cases hr : tail.drop 5 = []
      · rw [if_pos hr, if_neg (fun hand => hand.2 hr)]
        rfl
      · rw [if_neg hr, if_pos ⟨hd, hr⟩]
    · rw [if_neg hd, if_neg (fun hand => hd hand.1)]
      rfl

/-- C1 amended: at end of input the decoder flushes only a final unterminated
line.  For input made of newline-terminated text t followed by a
terminator-free tail, the frames are those of t alone plus, when the tail
starts with the data marker and its remainder after the five-character prefix
is non-empty, the parse of that remainder (untrimmed, with the data
accumulator ignored).  In particular an input ending in a newline (empty
tail) flushes nothing, dropping any accumulated fragments. -/
theorem c1_trailing_flush_amended (parse : List Char → Option JVal)
    (t tail : List Char)
    (ht : t = [] ∨ t.getLast? = some '\n') (htl : '\n' ∉ tail) :
    iterateSSEDataFrames parse [utf8Encode (t ++ tail)] =
      iterateSSEDataFrames parse [utf8Encode t] ++
        (if startsWithData tail = true ∧ tail.drop 5 ≠ []
         then (parse (tail.drop 5)).toList else []) := by
  unfold iterateSSEDataFrames
  simp only [runChunks]
  unfold feedChunk
  dsimp only
  rw [tdd_enc, tdd_enc]
  dsimp only
  rw [List.nil_append, List.nil_append]
  rw [List.foldl_append]
  have hb := lineScan_end_buf parse t ht [] []
  rw [show (t.foldl (lineScanStep parse) (([] : List JVal), ([] : List (List Char)), ([] : List Char))) =
      ((t.foldl (lineScanStep parse) ([], [], [])).1,
       (t.foldl (lineScanStep parse) ([], [], [])).2.1,
       (t.foldl (lineScanStep parse) ([], [], [])).2.2) from rfl]
  rw [hb]
  rw [lineScan_nonl parse tail htl _ _ []]
  rw [List.nil_append]
  rw [finalFlush_nonl parse tail htl]
  simp [finalFlush]

/-- C1 amended witness: a terminated data line (whose fragment sits in the
accumulator and is dropped) followed by an unterminated data line (which is
flushed on its own, untrimmed), via the theorem itself. -/
theorem c1_trailing_flush_amended_witness :
    ('\n' ∉ "data: 2".data) ∧
    iterateSSEDataFrames idStrParse [utf8Encode ("data: 1\n".data ++ "data: 2".data)] =
      [JVal.str " 2"] :=
  ⟨by decide,
    (c1_trailing_flush_amended idStrParse "data: 1\n".data "data: 2".data
      (Or.inr (by decide)) (by decide)).trans rfl⟩
